import Mathlib

/-!
Verification development for the transition-timeline and effort-attribution
engine of `jira_issues_with_sprints.py`.

Modelling conventions:
* Timestamps are integers (instants on a linear time axis).  In the source,
  changelog timestamps arrive as ISO-8601 strings; `calculate_durations`
  parses them with `strptime` (a malformed string raises `ValueError`,
  caught per event), while `accumulate_effort_per_status` compares the raw
  strings lexicographically, which coincides with chronological order for
  the fixed-offset format the spec assumes.  A timestamp that has to be
  parsed is therefore modelled as `Option Int`: `some t` is a well-formed
  string denoting instant `t`, `none` is a malformed string.
* Python floats are modelled as exact rationals (`ℚ`); Python `//` and `%`
  on integers are `Int.fdiv` / `Int.fmod` (floor division, as in Python);
  Python `int(...)` is truncation toward zero (`qtrunc`).
* Python dicts are association lists in insertion order: `alookup` is key
  lookup, `updAt` updates the value at a key in place, and appending adds a
  new key at the end, exactly as dict insertion does.
-/

/-- One changelog item, as produced by the Jira API: the changed field name
and its previous/next string values (either may be null). -/
structure StatusItem where
  field : String
  fromString : Option String
  toString : Option String
deriving DecidableEq, Repr

/-- One changelog history entry: its creation timestamp and its items.
`τ` is `Int` where the timestamp is used as an ordered instant and
`Option Int` where the source parses it (parse failure = `none`). -/
structure History (τ : Type) where
  created : τ
  items : List StatusItem
deriving DecidableEq, Repr

/-- One element of the list returned by `calculate_durations`:
the dict `{"from": ..., "to": ..., "duration": ...}` of the source. -/
structure TransitionRec where
  fromS : Option String
  toS : Option String
  duration : Int
deriving DecidableEq, Repr

/-- One worklog entry (`created` timestamp, `timeSpentSeconds`). -/
structure Worklog where
  created : Int
  timeSpentSeconds : Int
deriving DecidableEq, Repr

/-- Key lookup in an association list (Python `d[k]` / `k in d`). -/
def alookup {κ β : Type} [DecidableEq κ] : List (κ × β) → κ → Option β
  | [], _ => none
  | (k, v) :: rest, key => if key = k then some v else alookup rest key

/-- In-place update of the value stored at a key (Python `d[k] = f(d[k])`);
a missing key leaves the list unchanged (unreachable at every call site
below, because the source only updates keys it has initialized). -/
def updAt {κ β : Type} [DecidableEq κ] (f : β → β) : List (κ × β) → κ → List (κ × β)
  | [], _ => []
  | (k, v) :: rest, key => if key = k then (k, f v) :: rest else (k, v) :: updAt f rest key

/-- The status-change triples `(fromString, toString, created)` extracted by
`calculate_durations` (source lines 177-182): every item of every history,
in changelog order, kept when `item.field == "status"`. -/
def statusChangesOf {τ : Type} (histories : List (History τ)) :
    List (Option String × Option String × τ) :=
  histories.flatMap fun h =>
    (h.items.filter fun it => it.field == "status").map fun it =>
      (it.fromString, it.toString, h.created)

/-- The event loop of `calculate_durations` (source lines 186-199): a cursor
holds the last successfully parsed timestamp; a parsed event emits a record
with the signed difference and advances the cursor; a parse failure
(`ValueError` from `strptime`) skips the record and leaves the cursor. -/
def durationsGo (last : Int) :
    List (Option String × Option String × Option Int) → List TransitionRec
  | [] => []
  | (f, t, ts) :: rest =>
    match ts with
    | some ct => ⟨f, t, ct - last⟩ :: durationsGo ct rest
    | none => durationsGo last rest

/-- `calculate_durations` (source lines 170-199).  `created` is the parsed
issue creation timestamp (`fields.created`); the early returns for an empty
changelog and for a changelog without status items are kept as in the
source. -/
def calculate_durations (created : Int) (histories : List (History (Option Int))) :
    List TransitionRec :=
  if histories = [] then []
  else
    let status_changes := statusChangesOf histories
    if status_changes = [] then []
    else durationsGo created status_changes

/-- Spec-language duration sequence: one record per (parsed) event, in
order, whose duration is the event timestamp minus the previous cursor
timestamp (the creation timestamp for the first event). -/
def durationsOfEvents (last : Int) :
    List (Option String × Option String × Int) → List TransitionRec
  | [] => []
  | (f, t, ts) :: rest => ⟨f, t, ts - last⟩ :: durationsOfEvents ts rest

/-- The successfully parsed status-change events of a changelog. -/
def parsedEventsOf (histories : List (History (Option Int))) :
    List (Option String × Option String × Int) :=
  (statusChangesOf histories).filterMap fun e => (e.2.2).map fun ct => (e.1, e.2.1, ct)

/-- The grouping key of a transition record: the exact
`(from_status, to_status)` pair of strings, as received. -/
def keyOf (tr : TransitionRec) : Option String × Option String := (tr.fromS, tr.toS)

/-- Loop body of `calculate_transition_data` (source lines 535-543): if the
key is new, both dicts gain it at the end (value = this duration, count 1);
otherwise the stored duration and count are increased in place. -/
def ctdStep (acc : List ((Option String × Option String) × Int) × List ((Option String × Option String) × Nat))
    (tr : TransitionRec) :
    List ((Option String × Option String) × Int) × List ((Option String × Option String) × Nat) :=
  let key := keyOf tr
  if alookup acc.1 key = none then
    (acc.1 ++ [(key, tr.duration)], acc.2 ++ [(key, 1)])
  else
    (updAt (· + tr.duration) acc.1 key, updAt (· + 1) acc.2 key)

/-- `calculate_transition_data` (source lines 530-545): the pair of dicts
`(transition_durations, transition_execution_times)`. -/
def calculate_transition_data (durations : List TransitionRec) :
    List ((Option String × Option String) × Int) × List ((Option String × Option String) × Nat) :=
  durations.foldl ctdStep ([], [])

/-- Spec-language total duration of all records with a given key. -/
def sumKey (ds : List TransitionRec) (k : Option String × Option String) : Int :=
  ((ds.filter fun tr => decide (keyOf tr = k)).map fun tr => tr.duration).sum

/-- Spec-language number of records with a given key. -/
def cntKey (ds : List TransitionRec) (k : Option String × Option String) : Nat :=
  (ds.filter fun tr => decide (keyOf tr = k)).length

/-- `calculate_duration_components` (source lines 548-571).  The input is
`total_duration.total_seconds()`, a real number modelled exactly; Python
float `//` and `%` are floor division and its remainder. -/
def calculate_duration_components (total_seconds : ℚ) : ℤ × ℤ :=
  let days := ⌊total_seconds / (24 * 3600)⌋
  let remaining_seconds := total_seconds - 24 * 3600 * (days : ℚ)
  let remaining_hours := ⌊remaining_seconds / 3600⌋
  let rounded_days : ℤ :=
    if 0 < total_seconds then
      if days = 0 ∧ 0 < remaining_seconds then 1
      else if 0 < days ∧ 12 ≤ remaining_hours then days + 1
      else days
    else 0
  let total_hours : ℤ := if 0 < total_seconds then max 1 ⌊total_seconds / 3600⌋ else 0
  (rounded_days, total_hours)

/-- The rounded-day policy exactly as the spec words it: 0 if seconds <= 0;
else 1 if days == 0 and remaining_seconds > 0; else days + 1 if days > 0 and
remaining_hours >= 12; else days. -/
def claim_rounded_days (s : ℚ) : ℤ :=
  let days := ⌊s / 86400⌋
  let remaining_seconds := s - 86400 * (days : ℚ)
  let remaining_hours := ⌊remaining_seconds / 3600⌋
  if s ≤ 0 then 0
  else if days = 0 ∧ 0 < remaining_seconds then 1
  else if 0 < days ∧ 12 ≤ remaining_hours then days + 1
  else days

/-- The total-hours policy exactly as the spec words it:
`max(1, floor(seconds/3600))` when seconds > 0, else 0. -/
def claim_total_hours (s : ℚ) : ℤ :=
  if 0 < s then max 1 ⌊s / 3600⌋ else 0

/-- Python `int(...)` on a real value: truncation toward zero. -/
def qtrunc (q : ℚ) : ℤ := if 0 ≤ q then ⌊q⌋ else ⌈q⌉

/-- `format_duration_days` (source lines 202-225): 24-hour-day rendering
over day/hour/minute/second with `'s' if count > 1 else ''` suffixes. -/
def format_duration_days (duration_seconds : ℚ) : String :=
  let total_seconds := qtrunc duration_seconds
  let days := total_seconds.fdiv (3600 * 24)
  let t1 := total_seconds.fmod (3600 * 24)
  let hours := t1.fdiv 3600
  let t2 := t1.fmod 3600
  let minutes := t2.fdiv 60
  let seconds := t2.fmod 60
  let parts :=
    (if 0 < days then [toString days ++ " " ++ "day" ++ (if 1 < days then "s" else "")] else [])
    ++ (if 0 < hours then [toString hours ++ " " ++ "hour" ++ (if 1 < hours then "s" else "")] else [])
    ++ (if 0 < minutes then [toString minutes ++ " " ++ "minute" ++ (if 1 < minutes then "s" else "")] else [])
    ++ (if 0 < seconds then [toString seconds ++ " " ++ "second" ++ (if 1 < seconds then "s" else "")] else [])
  if parts = [] then "0 seconds" else String.intercalate ", " parts

/-- `format_detailed_duration` (source lines 340-359): the 6-hour-workday
effort rendering.  Note the source always appends the plural suffix
(`f"{days} days"` and so on), even for a count of 1. -/
def format_detailed_duration (hours : ℚ) : String :=
  let total_seconds := qtrunc (hours * 3600)
  let days := total_seconds.fdiv (6 * 3600)
  let t1 := total_seconds.fmod (6 * 3600)
  let hrs := t1.fdiv 3600
  let t2 := t1.fmod 3600
  let minutes := t2.fdiv 60
  let seconds := t2.fmod 60
  let parts :=
    (if 0 < days then [toString days ++ " " ++ "days"] else [])
    ++ (if 0 < hrs then [toString hrs ++ " " ++ "hours"] else [])
    ++ (if 0 < minutes then [toString minutes ++ " " ++ "minutes"] else [])
    ++ (if 0 < seconds then [toString seconds ++ " " ++ "seconds"] else [])
  if parts = [] then "0 seconds" else String.intercalate ", " parts

/-- The unit table of `format_duration` (source lines 233-241). -/
def time_units : List (String × ℤ) :=
  [("year", 365 * 24 * 60 * 60), ("month", 30 * 24 * 60 * 60), ("week", 7 * 24 * 60 * 60),
   ("day", 24 * 60 * 60), ("hour", 60 * 60), ("minute", 60), ("second", 1)]

/-- Loop body of `format_duration` (source lines 243-247): when the
remaining seconds reach the unit size, emit `count unit` with a plural
suffix for counts above 1 and keep the remainder. -/
def fdStep (acc : ℤ × List String) (u : String × ℤ) : ℤ × List String :=
  if u.2 ≤ acc.1 then
    (acc.1.fmod u.2,
     acc.2 ++ [toString (acc.1.fdiv u.2) ++ " " ++ u.1 ++ (if 1 < acc.1.fdiv u.2 then "s" else "")])
  else acc

/-- `format_duration` (source lines 228-248): greedy year/month/week/day/
hour/minute/second rendering. -/
def format_duration (duration_seconds : ℚ) : String :=
  let res := time_units.foldl fdStep (qtrunc duration_seconds, [])
  if res.2 = [] then "0 seconds" else String.intercalate ", " res.2

/-- Spec-language phrase for one component, singular for count 1, plural
for larger counts. -/
def unit_phrase (c : ℤ) (u : String) : String :=
  toString c ++ " " ++ u ++ (if 1 < c then "s" else "")

/-- Always-plural phrase for one component (what the source actually emits
in `format_detailed_duration`). -/
def unit_phrase_plural (c : ℤ) (u : String) : String :=
  toString c ++ " " ++ u ++ "s"

/-- Spec-language rendering: keep only components with a positive count,
phrase each with correct singular/plural, join with a comma and a space,
and render the all-zero case as "0 seconds". -/
def render_components (comps : List (ℤ × String)) : String :=
  let parts := comps.filterMap fun c => if 0 < c.1 then some (unit_phrase c.1 c.2) else none
  if parts = [] then "0 seconds" else String.intercalate ", " parts

/-- Like `render_components` but with the always-plural phrases. -/
def render_components_plural (comps : List (ℤ × String)) : String :=
  let parts := comps.filterMap fun c => if 0 < c.1 then some (unit_phrase_plural c.1 c.2) else none
  if parts = [] then "0 seconds" else String.intercalate ", " parts

/-- 24-hour-day decomposition of a second count into
day/hour/minute/second components. -/
def decomp24 (s : ℚ) : List (ℤ × String) :=
  let t := qtrunc s
  [(t.fdiv 86400, "day"), ((t.fmod 86400).fdiv 3600, "hour"),
   (((t.fmod 86400).fmod 3600).fdiv 60, "minute"), (((t.fmod 86400).fmod 3600).fmod 60, "second")]

/-- 6-hour-workday decomposition of an hour count into
day/hour/minute/second components. -/
def decomp6 (h : ℚ) : List (ℤ × String) :=
  let t := qtrunc (h * 3600)
  [(t.fdiv 21600, "day"), ((t.fmod 21600).fdiv 3600, "hour"),
   (((t.fmod 21600).fmod 3600).fdiv 60, "minute"), (((t.fmod 21600).fmod 3600).fmod 60, "second")]

/-- Greedy-unit step mirroring `fdStep`, but recording `(count, unit)`
components (count 0 when the unit is not reached) instead of strings. -/
def gdStep (acc : ℤ × List (ℤ × String)) (u : String × ℤ) : ℤ × List (ℤ × String) :=
  if u.2 ≤ acc.1 then (acc.1.fmod u.2, acc.2 ++ [(acc.1.fdiv u.2, u.1)])
  else (acc.1, acc.2 ++ [(0, u.1)])

/-- Greedy decomposition over `time_units`. -/
def greedy_decomp (s : ℚ) : List (ℤ × String) :=
  (time_units.foldl gdStep (qtrunc s, [])).2

/-- Python `round` on a real value: nearest integer, ties to even. -/
def python_round (q : ℚ) : ℤ :=
  let f := ⌊q⌋
  let r := q - (f : ℚ)
  if r < 1 / 2 then f
  else if 1 / 2 < r then f + 1
  else if Even f then f else f + 1

/-- `calculate_days_from_hours` (source lines 626-628): `round(hours / 6)`. -/
def calculate_days_from_hours (hours : ℚ) : ℤ := python_round (hours / 6)

/-- The per-status rounded-hours value of `append_time_spent_data` (source
line 636): `math.ceil(hours) if hours * 60 >= 30 else math.floor(hours)`. -/
def rounded_hours (hours : ℚ) : ℤ :=
  if 30 ≤ hours * 60 then ⌈hours⌉ else ⌊hours⌋

/-- Python truthiness of an optional string: `None` and `""` are falsy. -/
def truthy : Option String → Bool
  | none => false
  | some s => s != ""

/-- All status-change items of a changelog, in changelog order. -/
def statusItemsOf (histories : List (History Int)) : List StatusItem :=
  histories.flatMap fun h => h.items.filter fun it => it.field == "status"

/-- The `(toString, entry created)` pairs collected by
`accumulate_effort_per_status` (source lines 275-282), in changelog order. -/
def statusChangeDatesOf (histories : List (History Int)) : List (Option String × Int) :=
  histories.flatMap fun h =>
    (h.items.filter fun it => it.field == "status").map fun it => (it.toString, h.created)

/-- `initial_status` of `accumulate_effort_per_status`: the `fromString` of
the first status-change item; `none` both when no such item exists and when
its `fromString` is null (Python conflates the two as `None`). -/
def initialStatusOf (histories : List (History Int)) : Option String :=
  (statusItemsOf histories).head?.bind fun it => it.fromString

/-- `status_change_dates` after the synthetic-initial-entry insertion
(source lines 283-285): prepend `(initial_status, changelog[0].created)`
when `initial_status` is truthy and the changelog is non-empty. -/
def timelineOf (histories : List (History Int)) : List (Option String × Int) :=
  match histories with
  | [] => statusChangeDatesOf histories
  | h0 :: _ =>
    if truthy (initialStatusOf histories) then
      (initialStatusOf histories, h0.created) :: statusChangeDatesOf histories
    else statusChangeDatesOf histories

/-- The `time_spent_per_status` dict after initialization (source lines
288-289): every timeline status mapped to 0, first insertion wins the
position, later assignments overwrite in place. -/
def zeroMap (tl : List (Option String × Int)) : List (Option String × ℚ) :=
  tl.foldl
    (fun m p => if (alookup m p.1).isSome then updAt (fun _ => 0) m p.1 else m ++ [(p.1, 0)]) []

/-- Sum of all values of an effort dict. -/
def sumValues (m : List (Option String × ℚ)) : ℚ := (m.map fun p => p.2).sum

/-- Loop body of the worklog loop of `accumulate_effort_per_status` (source
lines 291-301): start from `initial_status`, scan the timeline in reverse
for the first entry whose date the worklog date reaches, and, when the
selected status is truthy, add `timeSpentSeconds / 3600` to its bucket. -/
def effortStep (tl : List (Option String × Int)) (init : Option String)
    (m : List (Option String × ℚ)) (w : Worklog) : List (Option String × ℚ) :=
  let current :=
    match tl.reverse.find? (fun p => decide (w.created ≥ p.2)) with
    | some p => p.1
    | none => init
  if truthy current then updAt (· + (w.timeSpentSeconds : ℚ) / 3600) m current else m

/-- `accumulate_effort_per_status` (source lines 270-302).  The worklogs
are passed in (the source fetches them over HTTP just before the loop). -/
def accumulate_effort_per_status (histories : List (History Int)) (worklogs : List Worklog) :
    List (Option String × ℚ) :=
  let tl := timelineOf histories
  worklogs.foldl (effortStep tl (initialStatusOf histories)) (zeroMap tl)

/-- The status timeline exactly as the claim words it: the status-change
events in changelog event order, preceded by a synthetic initial entry
(the `from_status` of the first status-change item, timestamped at the
first changelog entry creation time). -/
def spec_timeline (histories : List (History Int)) : List (Option String × Int) :=
  match histories.head?, (statusItemsOf histories).head? with
  | some h0, some it0 => (it0.fromString, h0.created) :: statusChangeDatesOf histories
  | _, _ => statusChangeDatesOf histories

/-- Attribution rule exactly as the claim words it: the first status,
scanning the timeline from most recent to earliest, whose effective-from
timestamp is at most the worklog timestamp (inclusive); when none
qualifies, the initial synthetic status. -/
def spec_select (tl : List (Option String × Int)) (initial : Option String) (t : Int) :
    Option String :=
  match tl.reverse.find? (fun p => decide (p.2 ≤ t)) with
  | some p => p.1
  | none => initial

/-- Effort attribution exactly as the claim words it: start every timeline
status at 0 hours and, for each worklog entry, add `seconds_spent / 3600`
to the bucket of the status selected by `spec_select`. -/
def effort_attribution_spec (histories : List (History Int)) (worklogs : List Worklog) :
    List (Option String × ℚ) :=
  let tl := spec_timeline histories
  let initial := (tl.headD (none, 0)).1
  worklogs.foldl
    (fun m w => updAt (· + (w.timeSpentSeconds : ℚ) / 3600) m (spec_select tl initial w.created))
    (zeroMap tl)

/-- Concrete two-event changelog used by witnesses: creation events at
instants 100 and 250. -/
def exHistories : List (History (Option Int)) :=
  [History.mk (some 100) [StatusItem.mk "status" (some "Open") (some "In Progress")],
   History.mk (some 250) [StatusItem.mk "status" (some "In Progress") (some "Done")]]

/-- Concrete changelog whose second entry is chronologically earlier than
the first (out-of-order source timestamps). -/
def exHistoriesOutOfOrder : List (History (Option Int)) :=
  [History.mk (some 100) [StatusItem.mk "status" (some "Open") (some "In Progress")],
   History.mk (some 50) [StatusItem.mk "status" (some "In Progress") (some "Done")]]

/-- The parsed events of `exHistoriesOutOfOrder`. -/
def exEventsOutOfOrder : List (Option String × Option String × Int) :=
  [(some "Open", some "In Progress", 100), (some "In Progress", some "Done", 50)]

/-- Concrete changelog whose single status change goes to the empty-string
status (a legal string value in the data model). -/
def exHistEmptyStatus : List (History Int) :=
  [History.mk 0 [StatusItem.mk "status" (some "A") (some "")]]

/-- One worklog of 3600 seconds at instant 5. -/
def exWorklogAfter : List Worklog := [Worklog.mk 5 3600]

/-- Concrete changelog giving the timeline [(A, 0), (B, 10), (C, 20)]:
the first history entry (at instant 0) carries no status item, so the
synthetic initial entry (A, 0) uses its creation time. -/
def exHistTimeline : List (History Int) :=
  [History.mk 0 [],
   History.mk 10 [StatusItem.mk "status" (some "A") (some "B")],
   History.mk 20 [StatusItem.mk "status" (some "B") (some "C")]]

/-- Two worklogs: one exactly at the (B, 10) boundary, one predating every
timeline entry. -/
def exWlMixed : List Worklog := [Worklog.mk 10 3600, Worklog.mk (-5) 7200]

/-- Two worklogs at or after t0 = 0 for the conservation witness. -/
def exWlConserve : List Worklog := [Worklog.mk 10 3600, Worklog.mk 15 1800]

theorem durationsGo_eq_parsed (evs : List (Option String × Option String × Option Int))
    (last : Int) :
    durationsGo last evs
      = durationsOfEvents last (evs.filterMap fun e => (e.2.2).map fun ct => (e.1, e.2.1, ct)) := by
  induction evs generalizing last with
  | nil => rfl
  | cons e rest ih =>
    obtain ⟨f, t, ts⟩ := e
    cases ts with
    | some ct => simp [durationsGo, List.filterMap_cons, Option.map, durationsOfEvents, ih]
    | none => simp [durationsGo, List.filterMap_cons, Option.map, ih]

theorem statusChangesOf_nil_of_nil {τ : Type} :
    statusChangesOf ([] : List (History τ)) = [] := rfl

theorem calculate_durations_eq_parsed (created : Int)
    (histories : List (History (Option Int))) :
    calculate_durations created histories = durationsOfEvents created (parsedEventsOf histories) := by
  by_cases h1 : histories = []
  · subst h1
    simp [calculate_durations, parsedEventsOf, statusChangesOf_nil_of_nil, durationsOfEvents,
      List.filterMap_nil]
  · by_cases h2 : statusChangesOf histories = []
    · simp [calculate_durations, h1, h2, parsedEventsOf, List.filterMap_nil, durationsOfEvents]
    · simp [calculate_durations, h1, h2, parsedEventsOf, durationsGo_eq_parsed]

theorem durationsOfEvents_length (evs : List (Option String × Option String × Int))
    (last : Int) : (durationsOfEvents last evs).length = evs.length := by
  induction evs generalizing last with
  | nil => rfl
  | cons e rest ih => obtain ⟨f, t, ts⟩ := e; simp [durationsOfEvents, ih]

theorem durationsOfEvents_sum (evs : List (Option String × Option String × Int))
    (last : Int) (hne : evs ≠ []) :
    ((durationsOfEvents last evs).map (fun r => r.duration)).sum
      = (evs.getLastD (none, none, 0)).2.2 - last := by
  induction evs generalizing last with
  | nil => exact absurd rfl hne
  | cons e rest ih =>
    obtain ⟨f, t, ts⟩ := e
    cases rest with
    | nil => simp [durationsOfEvents]
    | cons r rs =>
      have hrne : r :: rs ≠ [] := by simp
      have h1 := ih ts hrne
      have hunf : durationsOfEvents last ((f, t, ts) :: r :: rs)
          = ⟨f, t, ts - last⟩ :: durationsOfEvents ts (r :: rs) := rfl
      rw [hunf, List.map_cons, List.sum_cons, h1]
      simp only [List.getLastD_cons]
      ring

theorem parsed_eq_map (l : List (Option String × Option String × Option Int))
    (hall : ∀ e ∈ l, (e.2.2).isSome = true) :
    (l.filterMap fun e => (e.2.2).map fun ct => (e.1, e.2.1, ct))
      = l.map fun e => (e.1, e.2.1, (e.2.2).getD 0) := by
  induction l with
  | nil => rfl
  | cons e rest ih =>
    obtain ⟨f, t, ts⟩ := e
    cases ts with
    | none => simpa using hall _ (List.mem_cons_self _ _)
    | some ct =>
      have := ih fun x hx => hall x (List.mem_cons_of_mem _ hx)
      simp [List.filterMap_cons, this]

theorem parsedEventsOf_length (histories : List (History (Option Int))) :
    (parsedEventsOf histories).length
      = ((statusChangesOf histories).filter fun e => (e.2.2).isSome).length := by
  rw [parsedEventsOf]
  generalize statusChangesOf histories = l
  induction l with
  | nil => rfl
  | cons e rest ih =>
    obtain ⟨f, t, ts⟩ := e
    cases ts with
    | none => simpa [List.filterMap_cons] using ih
    | some ct => simpa [List.filterMap_cons] using ih

theorem durationsOfEvents_zipWith (evs : List (Option String × Option String × Int))
    (last : Int) :
    durationsOfEvents last evs
      = List.zipWith (fun e prev => TransitionRec.mk e.1 e.2.1 (e.2.2 - prev))
          evs (last :: evs.map fun e => e.2.2) := by
  induction evs generalizing last with
  | nil => rfl
  | cons e rest ih =>
    obtain ⟨f, t, ts⟩ := e
    simp [durationsOfEvents, ih]

/-- C2: for every creation timestamp and every non-empty status-change
event sequence whose timestamps all parse successfully, the sum of the
durations produced by `calculate_durations` equals the last event's
timestamp minus the creation timestamp (telescoping sum). -/
theorem c2_telescoping_sum (created : Int) (histories : List (History (Option Int)))
    (hne : statusChangesOf histories ≠ [])
    (hall : ∀ e ∈ statusChangesOf histories, (e.2.2).isSome = true) :
    ((calculate_durations created histories).map fun r => r.duration).sum
      = (((statusChangesOf histories).getLastD (none, none, none)).2.2).getD 0 - created := by
  rw [calculate_durations_eq_parsed]
  have hmap : parsedEventsOf histories
      = (statusChangesOf histories).map fun e => (e.1, e.2.1, (e.2.2).getD 0) :=
    parsed_eq_map _ hall
  have hne2 : parsedEventsOf histories ≠ [] := by
    rw [hmap]; simpa using hne
  rw [durationsOfEvents_sum _ _ hne2, hmap]
  congr 1
  rw [List.getLastD_eq_getLast?, List.getLastD_eq_getLast?, List.getLast?_map]
  cases h : (statusChangesOf histories).getLast? with
  | none => exact absurd (List.getLast?_eq_none_iff.mp h) hne
  | some e => simp

/-- Witness for C2 at a concrete two-event changelog: creation at 0,
events at 100 and 250, duration sum 250. -/
theorem c2_telescoping_sum_witness :
    statusChangesOf exHistories ≠ []
    ∧ (∀ e ∈ statusChangesOf exHistories, (e.2.2).isSome = true)
    ∧ ((calculate_durations 0 exHistories).map fun r => r.duration).sum
        = (((statusChangesOf exHistories).getLastD (none, none, none)).2.2).getD 0 - 0 :=
  ⟨by decide, by decide, c2_telescoping_sum 0 exHistories (by decide) (by decide)⟩

/-- C7: a parse failure on one event's timestamp skips only that record,
the cursor stays at the last successfully parsed timestamp (so the result
equals the computation over the parsed subsequence), and the result has one
record per event minus the skipped failures. -/
theorem c7_parse_failure_skips (created : Int) (histories : List (History (Option Int))) :
    calculate_durations created histories = durationsOfEvents created (parsedEventsOf histories)
    ∧ (calculate_durations created histories).length
        = ((statusChangesOf histories).filter fun e => (e.2.2).isSome).length := by
  refine ⟨calculate_durations_eq_parsed _ _, ?_⟩
  rw [calculate_durations_eq_parsed, durationsOfEvents_length, parsedEventsOf_length]

/-- C6: no re-sorting by timestamp: the records follow changelog entry
order, each duration is the signed difference from the previous cursor
timestamp, negative differences included, and a single-record aggregate
reproduces a negative duration unchanged. -/
theorem c6_no_timestamp_resort (created : Int) (histories : List (History (Option Int)))
    (evs : List (Option String × Option String × Int))
    (hall : statusChangesOf histories = evs.map fun e => (e.1, e.2.1, some e.2.2)) :
    calculate_durations created histories
      = List.zipWith (fun e prev => TransitionRec.mk e.1 e.2.1 (e.2.2 - prev))
          evs (created :: evs.map fun e => e.2.2)
    ∧ ∀ (f t : Option String) (d : Int),
        calculate_transition_data [TransitionRec.mk f t d] = ([((f, t), d)], [((f, t), 1)]) := by
  constructor
  · rw [calculate_durations_eq_parsed]
    have h1 : parsedEventsOf histories = evs := by
      rw [parsedEventsOf, hall]
      clear hall
      induction evs with
      | nil => rfl
      | cons e rest ih =>
        obtain ⟨f, t, ts⟩ := e
        simpa [List.filterMap_cons] using ih
    rw [h1]
    exact durationsOfEvents_zipWith evs created
  · intro f t d
    simp [calculate_transition_data, ctdStep, alookup, keyOf]

/-- Witness for C6 at a concrete out-of-order changelog (second event
earlier than the first): the second duration is the negative signed
difference, preserved by the aggregate. -/
theorem c6_no_timestamp_resort_witness :
    statusChangesOf exHistoriesOutOfOrder
      = (exEventsOutOfOrder.map fun e => (e.1, e.2.1, some e.2.2))
    ∧ calculate_durations 0 exHistoriesOutOfOrder
      = List.zipWith (fun e prev => TransitionRec.mk e.1 e.2.1 (e.2.2 - prev))
          exEventsOutOfOrder (0 :: exEventsOutOfOrder.map fun e => e.2.2)
    ∧ calculate_transition_data [TransitionRec.mk (some "A") (some "B") (-5)]
        = ([((some "A", some "B"), -5)], [((some "A", some "B"), 1)])
    ∧ calculate_durations 0 exHistoriesOutOfOrder
        = [TransitionRec.mk (some "Open") (some "In Progress") 100,
           TransitionRec.mk (some "In Progress") (some "Done") (-50)] :=
  ⟨by decide,
   (c6_no_timestamp_resort 0 exHistoriesOutOfOrder exEventsOutOfOrder (by decide)).1,
   (c6_no_timestamp_resort 0 exHistoriesOutOfOrder exEventsOutOfOrder (by decide)).2
     (some "A") (some "B") (-5),
   by decide⟩

theorem alookup_append {κ β : Type} [DecidableEq κ] (m1 m2 : List (κ × β)) (key : κ) :
    alookup (m1 ++ m2) key = (alookup m1 key).or (alookup m2 key) := by
  induction m1 with
  | nil => simp [alookup]
  | cons p rest ih =>
    obtain ⟨k, v⟩ := p
    by_cases h : key = k <;> simp [alookup, h, ih]

theorem alookup_updAt_self {κ β : Type} [DecidableEq κ] (f : β → β) (m : List (κ × β)) (k : κ) :
    alookup (updAt f m k) k = (alookup m k).map f := by
  induction m with
  | nil => simp [alookup, updAt]
  | cons p rest ih =>
    obtain ⟨k1, v⟩ := p
    by_cases h : k = k1 <;> simp [alookup, updAt, h, ih]

theorem alookup_updAt_ne {κ β : Type} [DecidableEq κ] (f : β → β) (m : List (κ × β))
    (k key : κ) (h : key ≠ k) : alookup (updAt f m k) key = alookup m key := by
  induction m with
  | nil => simp [updAt]
  | cons p rest ih =>
    obtain ⟨k1, v⟩ := p
    by_cases h1 : k = k1
    · subst h1
      simp [updAt, alookup, h]
    · by_cases h2 : key = k1 <;> simp [updAt, alookup, h1, h2, ih]

theorem updAt_keys {κ β : Type} [DecidableEq κ] (f : β → β) (m : List (κ × β)) (k : κ) :
    (updAt f m k).map Prod.fst = m.map Prod.fst := by
  induction m with
  | nil => rfl
  | cons p rest ih =>
    obtain ⟨k1, v⟩ := p
    by_cases h : k = k1 <;> simp [updAt, h, ih]

theorem alookup_eq_none_iff {κ β : Type} [DecidableEq κ] (m : List (κ × β)) (k : κ) :
    alookup m k = none ↔ k ∉ m.map Prod.fst := by
  induction m with
  | nil => simp [alookup]
  | cons p rest ih =>
    obtain ⟨k1, v⟩ := p
    by_cases h : k = k1 <;> simp [alookup, h, ih]

theorem sumKey_cons (tr : TransitionRec) (ds : List TransitionRec)
    (k : Option String × Option String) :
    sumKey (tr :: ds) k = if keyOf tr = k then tr.duration + sumKey ds k else sumKey ds k := by
  by_cases h : keyOf tr = k <;> simp [sumKey, List.filter_cons, h]

theorem cntKey_cons (tr : TransitionRec) (ds : List TransitionRec)
    (k : Option String × Option String) :
    cntKey (tr :: ds) k = if keyOf tr = k then cntKey ds k + 1 else cntKey ds k := by
  by_cases h : keyOf tr = k <;> simp [cntKey, List.filter_cons, h]

theorem ctd_fold_lookups (ds : List TransitionRec) :
    ∀ (td : List ((Option String × Option String) × Int))
      (te : List ((Option String × Option String) × Nat)),
      te.map Prod.fst = td.map Prod.fst →
      ∀ k,
        alookup (ds.foldl ctdStep (td, te)).1 k
          = (match alookup td k with
             | some v => some (v + sumKey ds k)
             | none => if cntKey ds k = 0 then none else some (sumKey ds k))
        ∧ alookup (ds.foldl ctdStep (td, te)).2 k
          = (match alookup te k with
             | some c => some (c + cntKey ds k)
             | none => if cntKey ds k = 0 then none else some (cntKey ds k)) := by
  induction ds with
  | nil =>
    intro td te hsync k
    simp only [List.foldl_nil, sumKey, cntKey, List.filter_nil, List.map_nil, List.sum_nil,
      List.length_nil]
    constructor
    · cases alookup td k <;> simp
    · cases alookup te k <;> simp
  | cons tr ds ih =>
    intro td te hsync k
    have hnone_sync : alookup te (keyOf tr) = none ↔ alookup td (keyOf tr) = none := by
      rw [alookup_eq_none_iff, alookup_eq_none_iff, hsync]
    rw [List.foldl_cons]
    by_cases hk : alookup td (keyOf tr) = none
    · have hke : alookup te (keyOf tr) = none := hnone_sync.mpr hk
      have hstep : ctdStep (td, te) tr
          = (td ++ [(keyOf tr, tr.duration)], te ++ [(keyOf tr, 1)]) := by
        simp [ctdStep, hk]
      rw [hstep]
      have hsync2 : (te ++ [(keyOf tr, 1)]).map Prod.fst
          = (td ++ [(keyOf tr, tr.duration)]).map Prod.fst := by
        simp [hsync]
      have h3 := ih _ _ hsync2 k
      rcases h3 with ⟨h3a, h3b⟩
      rw [h3a, h3b, alookup_append, alookup_append]
      by_cases hkk : k = keyOf tr
      · subst hkk
        rw [hk, hke]
        simp [alookup, sumKey_cons, cntKey_cons, Nat.add_comm]
      · have hne : keyOf tr ≠ k := fun h => hkk h.symm
        have e1 : alookup [(keyOf tr, tr.duration)] k = none := by
          simp [alookup, hkk]
        have e2 : alookup [(keyOf tr, (1 : Nat))] k = none := by
          simp [alookup, hkk]
        rw [e1, e2, sumKey_cons, cntKey_cons, if_neg hne, if_neg hne]
        constructor
        · cases alookup td k <;> simp
        · cases alookup te k <;> simp
    · have hke : ¬ alookup te (keyOf tr) = none := fun h => hk (hnone_sync.mp h)
      have hstep : ctdStep (td, te) tr
          = (updAt (· + tr.duration) td (keyOf tr), updAt (· + 1) te (keyOf tr)) := by
        simp [ctdStep, hk]
      rw [hstep]
      have hsync2 : (updAt (· + 1) te (keyOf tr)).map Prod.fst
          = (updAt (· + tr.duration) td (keyOf tr)).map Prod.fst := by
        rw [updAt_keys, updAt_keys, hsync]
      have h3 := ih _ _ hsync2 k
      rcases h3 with ⟨h3a, h3b⟩
      rw [h3a, h3b]
      by_cases hkk : k = keyOf tr
      · subst hkk
        obtain ⟨v, hv⟩ := Option.ne_none_iff_exists'.mp hk
        obtain ⟨c, hc⟩ := Option.ne_none_iff_exists'.mp hke
        rw [alookup_updAt_self, alookup_updAt_self, hv, hc, sumKey_cons, cntKey_cons]
        simp only [if_pos rfl, Option.map_some', hv, hc]
        constructor
        · congr 1
          simp only [if_true]
          ring
        · congr 1
          simp only [if_true]
          omega
      · have hne : keyOf tr ≠ k := fun h => hkk h.symm
        rw [alookup_updAt_ne _ _ _ _ hkk, alookup_updAt_ne _ _ _ _ hkk,
          sumKey_cons, cntKey_cons, if_neg hne, if_neg hne]
        exact ⟨rfl, rfl⟩

theorem ctd_fold_keys (ds : List TransitionRec) :
    ∀ (td : List ((Option String × Option String) × Int))
      (te : List ((Option String × Option String) × Nat)),
      te.map Prod.fst = td.map Prod.fst →
      (ds.foldl ctdStep (td, te)).2.map Prod.fst
        = (ds.foldl ctdStep (td, te)).1.map Prod.fst := by
  induction ds with
  | nil => intro td te h; simpa using h
  | cons tr ds ih =>
    intro td te h
    rw [List.foldl_cons]
    by_cases hk : alookup td (keyOf tr) = none
    · have hstep : ctdStep (td, te) tr
          = (td ++ [(keyOf tr, tr.duration)], te ++ [(keyOf tr, 1)]) := by
        simp [ctdStep, hk]
      rw [hstep]
      exact ih _ _ (by simp [h])
    · have hstep : ctdStep (td, te) tr
          = (updAt (· + tr.duration) td (keyOf tr), updAt (· + 1) te (keyOf tr)) := by
        simp [ctdStep, hk]
      rw [hstep]
      exact ih _ _ (by rw [updAt_keys, updAt_keys, h])

theorem ctd_fold_nodup (ds : List TransitionRec) :
    ∀ (td : List ((Option String × Option String) × Int))
      (te : List ((Option String × Option String) × Nat)),
      ((td.map Prod.fst).Nodup) →
      (((ds.foldl ctdStep (td, te)).1.map Prod.fst).Nodup) := by
  induction ds with
  | nil => intro td te h; simpa using h
  | cons tr ds ih =>
    intro td te h
    rw [List.foldl_cons]
    by_cases hk : alookup td (keyOf tr) = none
    · have hstep : ctdStep (td, te) tr
          = (td ++ [(keyOf tr, tr.duration)], te ++ [(keyOf tr, 1)]) := by
        simp [ctdStep, hk]
      rw [hstep]
      refine ih _ _ ?_
      have hmem : keyOf tr ∉ td.map Prod.fst := (alookup_eq_none_iff _ _).mp hk
      simp [List.nodup_append, h, hmem]
    · have hstep : ctdStep (td, te) tr
          = (updAt (· + tr.duration) td (keyOf tr), updAt (· + 1) te (keyOf tr)) := by
        simp [ctdStep, hk]
      rw [hstep]
      refine ih _ _ ?_
      rw [updAt_keys]
      exact h

/-- C5: `calculate_transition_data` groups records by the exact
`(from_status, to_status)` pair: key lists are duplicate-free and shared by
both dicts, the stored duration of a key is the sum of that key's
durations, the stored count is the number of that key's records, and the
concrete two-record `(Open, Reopened)` scenario yields 10800 and 2. -/
theorem c5_aggregation_by_pair (ds : List TransitionRec) :
    (((calculate_transition_data ds).1.map Prod.fst).Nodup)
    ∧ ((calculate_transition_data ds).2.map Prod.fst
        = (calculate_transition_data ds).1.map Prod.fst)
    ∧ (∀ k, alookup (calculate_transition_data ds).1 k
        = if cntKey ds k = 0 then none else some (sumKey ds k))
    ∧ (∀ k, alookup (calculate_transition_data ds).2 k
        = if cntKey ds k = 0 then none else some (cntKey ds k))
    ∧ calculate_transition_data
        [TransitionRec.mk (some "Open") (some "Reopened") 3600,
         TransitionRec.mk (some "Open") (some "Reopened") 7200]
      = ([((some "Open", some "Reopened"), 10800)], [((some "Open", some "Reopened"), 2)]) := by
  refine ⟨?_, ?_, ?_, ?_, by decide⟩
  · exact ctd_fold_nodup ds [] [] (by simp)
  · exact ctd_fold_keys ds [] [] rfl
  · intro k
    have h := (ctd_fold_lookups ds [] [] (by simp) k).1
    simpa [alookup] using h
  · intro k
    have h := (ctd_fold_lookups ds [] [] (by simp) k).2
    simpa [alookup] using h

/-- C4: `calculate_duration_components` returns exactly the rounded-day and
total-hours values the spec formulas describe, including the five boundary
cases 0, 1, 86400, 86400 + 11*3600 and 86400 + 12*3600. -/
theorem c4_duration_components (s : ℚ) :
    calculate_duration_components s = (claim_rounded_days s, claim_total_hours s)
    ∧ (calculate_duration_components 0).1 = 0
    ∧ (calculate_duration_components 1).1 = 1
    ∧ (calculate_duration_components 86400).1 = 1
    ∧ (calculate_duration_components (86400 + 11 * 3600)).1 = 1
    ∧ (calculate_duration_components (86400 + 12 * 3600)).1 = 2 := by
  refine ⟨?_, ?_, ?_, ?_, ?_, ?_⟩
  · have h24 : ((24 : ℚ) * 3600) = 86400 := by norm_num
    simp only [calculate_duration_components, claim_rounded_days, claim_total_hours, h24,
      Prod.mk.injEq]
    constructor
    · rcases le_or_lt s 0 with h | h
      · rw [if_neg (not_lt.mpr h), if_pos h]
      · rw [if_pos h, if_neg (not_le.mpr h)]
    · trivial
  · norm_num [calculate_duration_components]
  · have hd : ⌊(1 : ℚ) / (24 * 3600)⌋ = 0 := Int.floor_eq_iff.mpr (by norm_num)
    norm_num [calculate_duration_components, hd]
  · have hd : ⌊(86400 : ℚ) / (24 * 3600)⌋ = 1 := Int.floor_eq_iff.mpr (by norm_num)
    norm_num [calculate_duration_components, hd]
  · have hd : ⌊((86400 : ℚ) + 11 * 3600) / (24 * 3600)⌋ = 1 := Int.floor_eq_iff.mpr (by norm_num)
    norm_num [calculate_duration_components, hd]
  · have hd : ⌊((86400 : ℚ) + 12 * 3600) / (24 * 3600)⌋ = 1 := Int.floor_eq_iff.mpr (by norm_num)
    norm_num [calculate_duration_components, hd]

/-- C9: `calculate_days_from_hours` is `round(hours / 6)` under the host
language default round semantics: the result is within 1/2 of `hours / 6`,
and an exact half always resolves to the even neighbour (no floor or
ceiling special-casing for any input). -/
theorem c9_round_half_to_even (h : ℚ) (hh : 0 ≤ h) :
    calculate_days_from_hours h = python_round (h / 6)
    ∧ |h / 6 - (calculate_days_from_hours h : ℚ)| ≤ 1 / 2
    ∧ (|h / 6 - (calculate_days_from_hours h : ℚ)| = 1 / 2 →
        Even (calculate_days_from_hours h)) := by
  refine ⟨rfl, ?_⟩
  have hfl : ((⌊h / 6⌋ : ℚ)) ≤ h / 6 := Int.floor_le (h / 6)
  have hfu : h / 6 < (⌊h / 6⌋ : ℚ) + 1 := Int.lt_floor_add_one (h / 6)
  rw [calculate_days_from_hours, python_round]
  split_ifs with h1 h2 h3
  · refine ⟨?_, ?_⟩
    · rw [abs_of_nonneg (by linarith)]
      linarith
    · intro habs
      rw [abs_of_nonneg (by linarith)] at habs
      exfalso
      linarith
  · refine ⟨?_, ?_⟩
    · rw [abs_of_nonpos (by push_cast; linarith)]
      push_cast
      linarith
    · intro habs
      rw [abs_of_nonpos (by push_cast; linarith)] at habs
      exfalso
      push_cast at habs
      linarith
  · refine ⟨?_, ?_⟩
    · rw [abs_of_nonneg (by linarith)]
      linarith
    · intro _
      exact h3
  · refine ⟨?_, ?_⟩
    · rw [abs_of_nonpos (by push_cast; linarith)]
      push_cast
      linarith
    · intro _
      exact Int.even_add_one.mpr h3

/-- Witness for C9 at hours = 9: 9 / 6 = 3/2 is an exact half and the
result is the even neighbour 2. -/
theorem c9_round_half_to_even_witness :
    (0 : ℚ) ≤ 9
    ∧ (calculate_days_from_hours 9 = python_round ((9 : ℚ) / 6)
        ∧ |(9 : ℚ) / 6 - (calculate_days_from_hours 9 : ℚ)| ≤ 1 / 2
        ∧ (|(9 : ℚ) / 6 - (calculate_days_from_hours 9 : ℚ)| = 1 / 2 →
            Even (calculate_days_from_hours 9))) :=
  ⟨by norm_num, c9_round_half_to_even 9 (by norm_num)⟩

/-- C10: the per-status rounded-hours value is the ceiling of the effort
whenever the total effort reaches half an hour (`hours * 60 >= 30`) and the
floor otherwise; in particular 5.1 hours yields 6, so the rule is not
half-up rounding of the fractional part. -/
theorem c10_rounded_hours_policy (h : ℚ) :
    (1 / 2 ≤ h → rounded_hours h = ⌈h⌉)
    ∧ (h < 1 / 2 → rounded_hours h = ⌊h⌋)
    ∧ rounded_hours (51 / 10) = 6
    ∧ (⌊(51 : ℚ) / 10⌋ = 5) := by
  refine ⟨?_, ?_, ?_, Int.floor_eq_iff.mpr (by norm_num)⟩
  · intro h12
    rw [rounded_hours, if_pos (by linarith)]
  · intro h12
    rw [rounded_hours, if_neg (by intro hc; linarith)]
  · rw [rounded_hours, if_pos (by norm_num)]
    exact Int.ceil_eq_iff.mpr (by norm_num)

/-- Witness for C10 at hours = 51/10: the half-hour threshold is met and
the value rounds up to 6 although the fractional part is only 1/10. -/
theorem c10_rounded_hours_policy_witness :
    (1 / 2 : ℚ) ≤ 51 / 10
    ∧ rounded_hours (51 / 10) = ⌈(51 : ℚ) / 10⌉
    ∧ rounded_hours (51 / 10) = 6
    ∧ ⌊(51 : ℚ) / 10⌋ = 5 :=
  ⟨by norm_num,
   (c10_rounded_hours_policy (51 / 10)).1 (by norm_num),
   (c10_rounded_hours_policy (51 / 10)).2.2.1,
   (c10_rounded_hours_policy (51 / 10)).2.2.2⟩

theorem fdiv_pos {a b : ℤ} (hb : 0 < b) (hba : b ≤ a) : 0 < a.fdiv b := by
  rw [Int.fdiv_eq_ediv _ hb.le]
  have h1 : 1 ≤ a / b := by
    rw [Int.le_ediv_iff_mul_le hb]
    simpa using hba
  linarith

theorem fd_fold_render (units : List (String × ℤ)) :
    ∀ (rem : ℤ) (parts : List String) (comps : List (ℤ × String)),
      (∀ u ∈ units, 0 < u.2) →
      parts = comps.filterMap (fun c => if 0 < c.1 then some (unit_phrase c.1 c.2) else none) →
      (units.foldl fdStep (rem, parts)).2
        = ((units.foldl gdStep (rem, comps)).2).filterMap
            (fun c => if 0 < c.1 then some (unit_phrase c.1 c.2) else none) := by
  induction units with
  | nil =>
    intro rem parts comps hpos hinv
    simpa using hinv
  | cons u us ih =>
    intro rem parts comps hpos hinv
    rw [List.foldl_cons, List.foldl_cons]
    by_cases hle : u.2 ≤ rem
    · have hu : 0 < u.2 := hpos u (List.mem_cons_self _ _)
      have hcount : 0 < rem.fdiv u.2 := fdiv_pos hu hle
      have hstep1 : fdStep (rem, parts) u
          = (rem.fmod u.2,
             parts ++ [toString (rem.fdiv u.2) ++ " " ++ u.1
               ++ (if 1 < rem.fdiv u.2 then "s" else "")]) := by
        simp [fdStep, hle]
      have hstep2 : gdStep (rem, comps) u = (rem.fmod u.2, comps ++ [(rem.fdiv u.2, u.1)]) := by
        simp [gdStep, hle]
      rw [hstep1, hstep2]
      refine ih _ _ _ (fun v hv => hpos v (List.mem_cons_of_mem _ hv)) ?_
      rw [List.filterMap_append, hinv]
      simp [unit_phrase, hcount]
    · have hstep1 : fdStep (rem, parts) u = (rem, parts) := by
        simp [fdStep, hle]
      have hstep2 : gdStep (rem, comps) u = (rem, comps ++ [(0, u.1)]) := by
        simp [gdStep, hle]
      rw [hstep1, hstep2]
      refine ih _ _ _ (fun v hv => hpos v (List.mem_cons_of_mem _ hv)) ?_
      rw [List.filterMap_append, hinv]
      simp

theorem render_components_four (c1 c2 c3 c4 : ℤ) (u1 u2 u3 u4 : String) :
    render_components [(c1, u1), (c2, u2), (c3, u3), (c4, u4)]
      = (if ((if 0 < c1 then [unit_phrase c1 u1] else [])
            ++ (if 0 < c2 then [unit_phrase c2 u2] else [])
            ++ (if 0 < c3 then [unit_phrase c3 u3] else [])
            ++ (if 0 < c4 then [unit_phrase c4 u4] else [])) = []
         then "0 seconds"
         else String.intercalate ", "
            ((if 0 < c1 then [unit_phrase c1 u1] else [])
              ++ (if 0 < c2 then [unit_phrase c2 u2] else [])
              ++ (if 0 < c3 then [unit_phrase c3 u3] else [])
              ++ (if 0 < c4 then [unit_phrase c4 u4] else []))) := by
  have hp : ([(c1, u1), (c2, u2), (c3, u3), (c4, u4)].filterMap
        fun c => if 0 < c.1 then some (unit_phrase c.1 c.2) else none)
      = (if 0 < c1 then [unit_phrase c1 u1] else [])
        ++ (if 0 < c2 then [unit_phrase c2 u2] else [])
        ++ (if 0 < c3 then [unit_phrase c3 u3] else [])
        ++ (if 0 < c4 then [unit_phrase c4 u4] else []) := by
    simp only [List.filterMap_cons, List.filterMap_nil]
    split_ifs <;> simp
  simp only [render_components, hp]

theorem render_components_plural_four (c1 c2 c3 c4 : ℤ) (u1 u2 u3 u4 : String) :
    render_components_plural [(c1, u1), (c2, u2), (c3, u3), (c4, u4)]
      = (if ((if 0 < c1 then [unit_phrase_plural c1 u1] else [])
            ++ (if 0 < c2 then [unit_phrase_plural c2 u2] else [])
            ++ (if 0 < c3 then [unit_phrase_plural c3 u3] else [])
            ++ (if 0 < c4 then [unit_phrase_plural c4 u4] else [])) = []
         then "0 seconds"
         else String.intercalate ", "
            ((if 0 < c1 then [unit_phrase_plural c1 u1] else [])
              ++ (if 0 < c2 then [unit_phrase_plural c2 u2] else [])
              ++ (if 0 < c3 then [unit_phrase_plural c3 u3] else [])
              ++ (if 0 < c4 then [unit_phrase_plural c4 u4] else []))) := by
  have hp : ([(c1, u1), (c2, u2), (c3, u3), (c4, u4)].filterMap
        fun c => if 0 < c.1 then some (unit_phrase_plural c.1 c.2) else none)
      = (if 0 < c1 then [unit_phrase_plural c1 u1] else [])
        ++ (if 0 < c2 then [unit_phrase_plural c2 u2] else [])
        ++ (if 0 < c3 then [unit_phrase_plural c3 u3] else [])
        ++ (if 0 < c4 then [unit_phrase_plural c4 u4] else []) := by
    simp only [List.filterMap_cons, List.filterMap_nil]
    split_ifs <;> simp
  simp only [render_components_plural, hp]

theorem format_duration_days_eq_render (s : ℚ) :
    format_duration_days s = render_components (decomp24 s) := by
  have e1 : ((3600 : ℤ) * 24) = 86400 := by norm_num
  simp only [decomp24, render_components_four, format_duration_days, unit_phrase, e1]

theorem format_detailed_duration_eq_render (h : ℚ) :
    format_detailed_duration h = render_components_plural (decomp6 h) := by
  have e1 : ((6 : ℤ) * 3600) = 21600 := by norm_num
  have w1 : ∀ c : ℤ, unit_phrase_plural c "day" = toString c ++ " " ++ "days" := by
    intro c
    rw [unit_phrase_plural, String.append_assoc,
      show (("day" : String) ++ "s") = "days" from rfl]
  have w2 : ∀ c : ℤ, unit_phrase_plural c "hour" = toString c ++ " " ++ "hours" := by
    intro c
    rw [unit_phrase_plural, String.append_assoc,
      show (("hour" : String) ++ "s") = "hours" from rfl]
  have w3 : ∀ c : ℤ, unit_phrase_plural c "minute" = toString c ++ " " ++ "minutes" := by
    intro c
    rw [unit_phrase_plural, String.append_assoc,
      show (("minute" : String) ++ "s") = "minutes" from rfl]
  have w4 : ∀ c : ℤ, unit_phrase_plural c "second" = toString c ++ " " ++ "seconds" := by
    intro c
    rw [unit_phrase_plural, String.append_assoc,
      show (("second" : String) ++ "s") = "seconds" from rfl]
  simp only [decomp6, render_components_plural_four, format_detailed_duration, e1, w1, w2, w3, w4]

theorem format_duration_eq_render (s : ℚ) :
    format_duration s = render_components (greedy_decomp s) := by
  have h := fd_fold_render time_units (qtrunc s) [] [] (by decide) rfl
  simp only [format_duration, render_components, greedy_decomp, h]

/-- C8 (amended): every rendering variant emits only the positive
components, joined by ", ", and renders an all-zero duration as
"0 seconds"; the 24-hour-day variant and the greedy year/month variant use
correct singular/plural suffixes (count 1 singular, larger counts plural),
but `format_detailed_duration` always appends the plural suffix, even for
a count of 1. -/
theorem c8_rendering_variants :
    (∀ s : ℚ, format_duration_days s = render_components (decomp24 s))
    ∧ (∀ h : ℚ, format_detailed_duration h = render_components_plural (decomp6 h))
    ∧ (∀ s : ℚ, format_duration s = render_components (greedy_decomp s))
    ∧ format_duration_days 0 = "0 seconds"
    ∧ format_detailed_duration 0 = "0 seconds"
    ∧ format_duration 0 = "0 seconds"
    ∧ format_duration_days 86400 = "1 day"
    ∧ format_duration_days 172800 = "2 days"
    ∧ format_detailed_duration 1 = "1 hours" := by
  have hq0 : qtrunc 0 = 0 := by norm_num [qtrunc]
  have hq0m : qtrunc ((0 : ℚ) * 3600) = 0 := by norm_num [qtrunc]
  have hq86400 : qtrunc (86400 : ℚ) = 86400 := by norm_num [qtrunc]
  have hq172800 : qtrunc (172800 : ℚ) = 172800 := by norm_num [qtrunc]
  have hq3600 : qtrunc ((1 : ℚ) * 3600) = 3600 := by norm_num [qtrunc]
  refine ⟨format_duration_days_eq_render, format_detailed_duration_eq_render,
    format_duration_eq_render, ?_, ?_, ?_, ?_, ?_, ?_⟩
  · simp only [format_duration_days, hq0]
    decide
  · simp only [format_detailed_duration, hq0m]
    decide
  · simp only [format_duration, hq0]
    decide
  · simp only [format_duration_days, hq86400]
    decide
  · simp only [format_duration_days, hq172800]
    decide
  · simp only [format_detailed_duration, hq3600]
    decide

/-- C8 counterexample: 6 hours is exactly one 6-hour workday, yet
`format_detailed_duration` renders it "1 days" with a plural suffix, not
the singular "1 day" the claim requires of every variant. -/
theorem c8_counterexample :
    format_detailed_duration 6 = "1 days" ∧ format_detailed_duration 6 ≠ "1 day" := by
  have h1 : qtrunc ((6 : ℚ) * 3600) = 21600 := by norm_num [qtrunc]
  constructor
  · simp only [format_detailed_duration, h1]
    decide
  · simp only [format_detailed_duration, h1]
    decide


theorem alookup_isSome_iff {κ β : Type} [DecidableEq κ] (m : List (κ × β)) (k : κ) :
    (alookup m k).isSome = true ↔ k ∈ m.map Prod.fst := by
  rw [Option.isSome_iff_ne_none, ne_eq, alookup_eq_none_iff]
  exact not_not

theorem zeroMap_keys (tl : List (Option String × Int)) (k : Option String) :
    (k ∈ (zeroMap tl).map Prod.fst ↔ k ∈ tl.map Prod.fst) := by
  suffices haux : ∀ (l : List (Option String × Int)) (m : List (Option String × ℚ)),
      (k ∈ (l.foldl (fun m p =>
          if (alookup m p.1).isSome then updAt (fun _ => 0) m p.1 else m ++ [(p.1, 0)]) m).map
            Prod.fst
        ↔ k ∈ m.map Prod.fst ∨ k ∈ l.map Prod.fst) by
    rw [zeroMap, haux]
    simp
  intro l
  induction l with
  | nil => intro m; simp
  | cons p rest ih =>
    intro m
    simp only [List.foldl_cons]
    by_cases hmem : (alookup m p.1).isSome
    · rw [if_pos hmem, ih]
      have hp : p.1 ∈ m.map Prod.fst := (alookup_isSome_iff m p.1).mp hmem
      rw [updAt_keys]
      simp only [List.map_cons, List.mem_cons]
      constructor
      · rintro (h | h)
        · exact Or.inl h
        · exact Or.inr (Or.inr h)
      · rintro (h | h | h)
        · exact Or.inl h
        · exact Or.inl (h ▸ hp)
        · exact Or.inr h
    · rw [if_neg hmem, ih]
      simp only [List.map_append, List.map_cons, List.map_nil, List.mem_append,
        List.mem_cons, List.mem_singleton, List.not_mem_nil, or_false]
      exact or_assoc

theorem updAt_const_zero_values (m : List (Option String × ℚ)) (key : Option String)
    (h : ∀ q ∈ m, q.2 = 0) : ∀ q ∈ updAt (fun _ => (0 : ℚ)) m key, q.2 = 0 := by
  induction m with
  | nil => intro q hq; simp [updAt] at hq
  | cons x xs ih =>
    obtain ⟨k1, v1⟩ := x
    intro q hq
    simp only [updAt] at hq
    by_cases hx : key = k1
    · rw [if_pos hx] at hq
      rcases List.mem_cons.mp hq with h1 | h1
      · rw [h1]
      · exact h q (List.mem_cons_of_mem _ h1)
    · rw [if_neg hx] at hq
      rcases List.mem_cons.mp hq with h1 | h1
      · exact h q (h1 ▸ List.mem_cons_self _ _)
      · exact ih (fun r hr => h r (List.mem_cons_of_mem _ hr)) q h1

theorem zeroMap_values (tl : List (Option String × Int)) :
    ∀ q ∈ zeroMap tl, q.2 = 0 := by
  suffices haux : ∀ (l : List (Option String × Int)) (m : List (Option String × ℚ)),
      (∀ q ∈ m, q.2 = 0) →
      ∀ q ∈ (l.foldl (fun m p =>
          if (alookup m p.1).isSome then updAt (fun _ => 0) m p.1 else m ++ [(p.1, 0)]) m),
        q.2 = 0 by
    exact haux tl [] (by simp)
  intro l
  induction l with
  | nil => intro m hm; simpa using hm
  | cons p rest ih =>
    intro m hm
    simp only [List.foldl_cons]
    by_cases hmem : (alookup m p.1).isSome
    · rw [if_pos hmem]
      exact ih _ (updAt_const_zero_values m p.1 hm)
    · rw [if_neg hmem]
      refine ih _ ?_
      intro q hq
      rcases List.mem_append.mp hq with h | h
      · exact hm q h
      · rw [List.mem_singleton.mp h]

theorem sumValues_zero_of_values (m : List (Option String × ℚ)) (h : ∀ q ∈ m, q.2 = 0) :
    sumValues m = 0 := by
  rw [sumValues]
  induction m with
  | nil => rfl
  | cons p rest ih =>
    rw [List.map_cons, List.sum_cons, h p (List.mem_cons_self _ _),
      ih fun q hq => h q (List.mem_cons_of_mem _ hq), add_zero]

theorem sumValues_updAt_add (m : List (Option String × ℚ)) (k : Option String) (v : ℚ)
    (hk : k ∈ m.map Prod.fst) :
    sumValues (updAt (· + v) m k) = sumValues m + v := by
  induction m with
  | nil => simp at hk
  | cons x xs ih =>
    obtain ⟨k1, v1⟩ := x
    by_cases h : k = k1
    · simp only [updAt, if_pos h, sumValues, List.map_cons, List.sum_cons]
      ring
    · have hk' : k ∈ k1 :: xs.map Prod.fst := by
        rw [List.map_cons] at hk
        exact hk
      have hk2 : k ∈ xs.map Prod.fst := by
        rcases List.mem_cons.mp hk' with h1 | h1
        · exact absurd h1 h
        · exact h1
      have hxs := ih hk2
      rw [sumValues] at hxs
      simp only [updAt, if_neg h, sumValues, List.map_cons, List.sum_cons, hxs]
      ring

theorem effortStep_finds (tl : List (Option String × Int)) (init : Option String)
    (hd : Option String × Int) (rest : List (Option String × Int))
    (htl : tl = hd :: rest) (w : Worklog) (hw : hd.2 ≤ w.created) :
    ∃ p, tl.reverse.find? (fun p => decide (w.created ≥ p.2)) = some p ∧ p ∈ tl := by
  cases hf : tl.reverse.find? (fun p => decide (w.created ≥ p.2)) with
  | none =>
    exfalso
    have hmem : hd ∈ tl.reverse := by
      rw [List.mem_reverse, htl]
      exact List.mem_cons_self _ _
    have := List.find?_eq_none.mp hf hd hmem
    simp only [decide_eq_true_eq, ge_iff_le] at this
    exact this hw
  | some p =>
    exact ⟨p, rfl, List.mem_reverse.mp (List.mem_of_find?_eq_some hf)⟩

theorem effort_fold_sum (tl : List (Option String × Int)) (init : Option String)
    (hd : Option String × Int) (rest : List (Option String × Int)) (htl : tl = hd :: rest)
    (htruth : ∀ p ∈ tl, truthy p.1 = true) :
    ∀ (wls : List Worklog) (m : List (Option String × ℚ)),
      (∀ k, k ∈ tl.map Prod.fst → k ∈ m.map Prod.fst) →
      (∀ w ∈ wls, hd.2 ≤ w.created) →
      sumValues (wls.foldl (effortStep tl init) m)
        = sumValues m + (wls.map fun w => (w.timeSpentSeconds : ℚ) / 3600).sum := by
  intro wls
  induction wls with
  | nil => intro m hkeys hwl; simp
  | cons w wls ih =>
    intro m hkeys hwl
    obtain ⟨p, hp, hpmem⟩ :=
      effortStep_finds tl init hd rest htl w (hwl w (List.mem_cons_self _ _))
    have htr : truthy p.1 = true := htruth p hpmem
    have hstep : effortStep tl init m w
        = updAt (· + (w.timeSpentSeconds : ℚ) / 3600) m p.1 := by
      rw [effortStep, hp, if_pos htr]
    rw [List.foldl_cons, hstep,
      ih _ (fun k hk => by rw [updAt_keys]; exact hkeys k hk)
        (fun w2 hw2 => hwl w2 (List.mem_cons_of_mem _ hw2)),
      sumValues_updAt_add m p.1 _ (hkeys p.1 (List.mem_map_of_mem _ hpmem))]
    rw [List.map_cons, List.sum_cons]
    ring

theorem sum_div_3600 (wls : List Worklog) :
    (wls.map fun w => (w.timeSpentSeconds : ℚ) / 3600).sum
      = ((wls.map fun w => w.timeSpentSeconds).sum : ℤ) / (3600 : ℚ) := by
  induction wls with
  | nil => simp
  | cons w wls ih =>
    rw [List.map_cons, List.sum_cons, ih, List.map_cons, List.sum_cons]
    push_cast
    ring

/-- C3 (amended): for every changelog whose status timeline is non-empty
and contains only non-empty status names, and every worklog list whose
timestamps are at or after the first effective-from timestamp t0, the sum
of the accumulated effort mapping equals the total logged seconds divided
by 3600 (no effort lost or double-counted). -/
theorem c3_effort_conservation (histories : List (History Int)) (wls : List Worklog)
    (hne : timelineOf histories ≠ [])
    (htruth : ∀ p ∈ timelineOf histories, truthy p.1 = true)
    (hwl : ∀ w ∈ wls, ((timelineOf histories).headD (none, 0)).2 ≤ w.created) :
    sumValues (accumulate_effort_per_status histories wls)
      = ((wls.map fun w => w.timeSpentSeconds).sum : ℤ) / (3600 : ℚ) := by
  obtain ⟨hd, rest, htl⟩ := List.exists_cons_of_ne_nil hne
  have hhd : ((timelineOf histories).headD (none, 0)) = hd := by
    rw [htl]
    rfl
  rw [accumulate_effort_per_status,
    effort_fold_sum (timelineOf histories) (initialStatusOf histories) hd rest htl htruth wls
      (zeroMap (timelineOf histories))
      (fun k hk => (zeroMap_keys (timelineOf histories) k).mpr hk)
      (fun w hw => by rw [← hhd]; exact hwl w hw),
    sumValues_zero_of_values _ (zeroMap_values _), zero_add, sum_div_3600]

/-- C3 counterexample: the data model allows the empty string as a status
name; with timeline [("A", 0), ("", 0)] and one 3600-second worklog at
instant 5 (at or after t0 = 0), the truthiness guard of
`accumulate_effort_per_status` drops the worklog attributed to the
empty-named status: total recorded effort is 0 instead of 3600/3600 = 1. -/
theorem c3_counterexample :
    timelineOf exHistEmptyStatus ≠ []
    ∧ (∀ w ∈ exWorklogAfter, ((timelineOf exHistEmptyStatus).headD (none, 0)).2 ≤ w.created)
    ∧ accumulate_effort_per_status exHistEmptyStatus exWorklogAfter
        = [(some "A", 0), (some "", 0)]
    ∧ sumValues (accumulate_effort_per_status exHistEmptyStatus exWorklogAfter) = 0
    ∧ ((exWorklogAfter.map fun w => w.timeSpentSeconds).sum : ℤ) / (3600 : ℚ) = 1
    ∧ (0 : ℚ) ≠ 1 := by
  have hres : accumulate_effort_per_status exHistEmptyStatus exWorklogAfter
      = [(some "A", 0), (some "", 0)] := by decide
  refine ⟨by decide, by decide, hres, ?_, by norm_num [exWorklogAfter], by norm_num⟩
  rw [hres]
  norm_num [sumValues]

/-- Witness for C3 (amended) on the timeline [(A,0),(B,10),(C,20)] with
worklogs of 3600 and 1800 seconds at instants 10 and 15. -/
theorem c3_effort_conservation_witness :
    timelineOf exHistTimeline ≠ []
    ∧ (∀ p ∈ timelineOf exHistTimeline, truthy p.1 = true)
    ∧ (∀ w ∈ exWlConserve, ((timelineOf exHistTimeline).headD (none, 0)).2 ≤ w.created)
    ∧ sumValues (accumulate_effort_per_status exHistTimeline exWlConserve)
        = ((exWlConserve.map fun w => w.timeSpentSeconds).sum : ℤ) / (3600 : ℚ) :=
  ⟨by decide, by decide, by decide,
   c3_effort_conservation exHistTimeline exWlConserve (by decide) (by decide) (by decide)⟩

/-- C1 (amended): when the first status-change item has a truthy (non-null,
non-empty) `from_status` and every timeline status is truthy, the code
builds the timeline in changelog event order with the synthetic initial
entry (first item `from_status`, first changelog entry creation time), and
attributes every worklog exactly as the claim states: to the first status,
scanning from most recent to earliest, whose effective-from timestamp is at
most the worklog timestamp (inclusive), falling back to the initial
synthetic status when the worklog predates every entry; a worklog whose
selected status is null or empty would instead be dropped, which the
hypotheses exclude. -/
theorem c1_effort_attribution (h0 : History Int) (hs : List (History Int)) (wls : List Worklog)
    (hinit : truthy (initialStatusOf (h0 :: hs)) = true)
    (hstat : ∀ p ∈ statusChangeDatesOf (h0 :: hs), truthy p.1 = true) :
    timelineOf (h0 :: hs)
      = (initialStatusOf (h0 :: hs), h0.created) :: statusChangeDatesOf (h0 :: hs)
    ∧ spec_timeline (h0 :: hs) = timelineOf (h0 :: hs)
    ∧ accumulate_effort_per_status (h0 :: hs) wls = effort_attribution_spec (h0 :: hs) wls := by
  have htl : timelineOf (h0 :: hs)
      = (initialStatusOf (h0 :: hs), h0.created) :: statusChangeDatesOf (h0 :: hs) := by
    simp only [timelineOf]
    rw [if_pos hinit]
  have hitem : ∃ it0 irest, statusItemsOf (h0 :: hs) = it0 :: irest := by
    cases hI : statusItemsOf (h0 :: hs) with
    | nil =>
      exfalso
      rw [initialStatusOf, hI] at hinit
      simp [truthy] at hinit
    | cons a l => exact ⟨a, l, rfl⟩
  obtain ⟨it0, irest, hI⟩ := hitem
  have hinit_eq : initialStatusOf (h0 :: hs) = it0.fromString := by
    rw [initialStatusOf, hI]
    rfl
  have hspec : spec_timeline (h0 :: hs) = timelineOf (h0 :: hs) := by
    simp only [spec_timeline, List.head?_cons, hI]
    rw [htl, hinit_eq]
  have hheadD : ((timelineOf (h0 :: hs)).headD (none, 0))
      = (initialStatusOf (h0 :: hs), h0.created) := by
    rw [htl]
    rfl
  have hstep : ∀ (m : List (Option String × ℚ)) (w : Worklog),
      effortStep (timelineOf (h0 :: hs)) (initialStatusOf (h0 :: hs)) m w
        = updAt (· + (w.timeSpentSeconds : ℚ) / 3600) m
            (spec_select (timelineOf (h0 :: hs))
              ((timelineOf (h0 :: hs)).headD (none, 0)).1 w.created) := by
    intro m w
    have hpred : (fun p : Option String × Int => decide (w.created ≥ p.2))
        = fun p : Option String × Int => decide (p.2 ≤ w.created) := by
      funext p
      exact decide_eq_decide.mpr ge_iff_le
    cases hf : (timelineOf (h0 :: hs)).reverse.find?
        (fun p : Option String × Int => decide (p.2 ≤ w.created)) with
    | some p =>
      have hpmem : p ∈ timelineOf (h0 :: hs) :=
        List.mem_reverse.mp (List.mem_of_find?_eq_some hf)
      have htr : truthy p.1 = true := by
        rw [htl] at hpmem
        rcases List.mem_cons.mp hpmem with h1 | h1
        · rw [h1]
          exact hinit
        · exact hstat p h1
      simp only [effortStep, spec_select, hpred, hf]
      rw [if_pos htr]
    | none =>
      simp only [effortStep, spec_select, hpred, hf]
      rw [if_pos hinit, hheadD]
  refine ⟨htl, hspec, ?_⟩
  simp only [accumulate_effort_per_status, effort_attribution_spec, hspec]
  exact List.foldl_ext _ _ _ fun acc w _ => hstep acc w

/-- C1 counterexample: with the changelog whose only status change goes to
the empty-string status and a worklog at instant 5, the claim attributes
the worklog to the selected status "" (timeline scan, inclusive bound), but
the code's truthiness guard drops it: the recorded mapping keeps "" at 0
while the claim-described attribution yields 1 hour. -/
theorem c1_counterexample :
    spec_select (timelineOf exHistEmptyStatus) (initialStatusOf exHistEmptyStatus) 5 = some ""
    ∧ accumulate_effort_per_status exHistEmptyStatus exWorklogAfter
        = [(some "A", 0), (some "", 0)]
    ∧ effort_attribution_spec exHistEmptyStatus exWorklogAfter = [(some "A", 0), (some "", 1)]
    ∧ accumulate_effort_per_status exHistEmptyStatus exWorklogAfter
        ≠ effort_attribution_spec exHistEmptyStatus exWorklogAfter := by
  have h2 : zeroMap (spec_timeline exHistEmptyStatus) = [(some "A", 0), (some "", 0)] := by
    decide
  have h3 : spec_select (spec_timeline exHistEmptyStatus)
      ((spec_timeline exHistEmptyStatus).headD (none, 0)).1 5 = some "" := by decide
  have hspecval : effort_attribution_spec exHistEmptyStatus exWorklogAfter
      = [(some "A", 0), (some "", 1)] := by
    simp only [effort_attribution_spec, exWorklogAfter, List.foldl_cons, List.foldl_nil, h2, h3]
    norm_num [updAt]
    decide
  have hcode : accumulate_effort_per_status exHistEmptyStatus exWorklogAfter
      = [(some "A", 0), (some "", 0)] := by decide
  refine ⟨by decide, hcode, hspecval, ?_⟩
  rw [hcode, hspecval]
  simp

/-- Witness for C1 (amended) on the timeline [(A,0),(B,10),(C,20)]: the
code equals the claim-described attribution; a worklog exactly at the (B,
10) boundary selects B (inclusive bound) and a worklog at -5, predating
every entry, selects the synthetic initial status A. -/
theorem c1_effort_attribution_witness :
    truthy (initialStatusOf exHistTimeline) = true
    ∧ (∀ p ∈ statusChangeDatesOf exHistTimeline, truthy p.1 = true)
    ∧ (timelineOf exHistTimeline
        = (initialStatusOf exHistTimeline, 0) :: statusChangeDatesOf exHistTimeline
      ∧ spec_timeline exHistTimeline = timelineOf exHistTimeline
      ∧ accumulate_effort_per_status exHistTimeline exWlMixed
          = effort_attribution_spec exHistTimeline exWlMixed)
    ∧ spec_select (timelineOf exHistTimeline) (some "A") 10 = some "B"
    ∧ spec_select (timelineOf exHistTimeline) (some "A") (-5) = some "A" :=
  ⟨by decide, by decide,
   c1_effort_attribution (History.mk 0 [])
     [History.mk 10 [StatusItem.mk "status" (some "A") (some "B")],
      History.mk 20 [StatusItem.mk "status" (some "B") (some "C")]] exWlMixed
     (by decide) (by decide),
   by decide, by decide⟩
